import Mathlib

/-!
Shallow embedding of the asynchronous activity-log ingestion/batching
pipeline, the log query/filter builder, and the per-client rate limiter of
`user_mgmt_go`.

Sources embedded:
* `internal/models/user_log.go` — the `UserLog` document and the
  `LogFilterRequest` filter input.
* `internal/repository/interfaces.go` (the `userLogRepository` part) —
  `CreateAsync`, the async batch worker (`startAsyncProcessor`),
  `Close`, `List`, `SearchLogs`, `GetEventStats`, `buildLogFilter`,
  `CalculateTotalPages`.
* `internal/middleware/security.go` — `RateLimiter`, `Visitor`, `Allow`,
  `cleanupVisitors`.

Modelling conventions:
* Time instants and durations are `Int` in a single fixed unit
  (nanoseconds, like Go's `time.Duration`); `time.Now()` becomes an
  explicit parameter.  The Go zero `time.Time` is modelled as timestamp 0.
* The MongoDB collection is a `List UserLog`; `InsertOne`/`InsertMany`
  append, `Find` filters the list with the predicate denoted by the bson
  filter document, `$regex term $options "i"` on a literal term is
  case-insensitive substring occurrence, and a query on a field marked
  `omitempty` does not match documents where that field is empty (the
  field is then absent from the stored document).
* Channels become explicit queues; each `select` arm becomes one step
  function of a transition system; goroutine timers (`time.Sleep(rate)`)
  become pending events fired by an explicit `elapse` step.
* Go `int`/`int64` are modelled as `Int` (no overflow is reachable here),
  channel occupancies as `Nat`.
-/

namespace UserMgmt

/-! ### Case-insensitive substring matching

Models a MongoDB `{$regex: term, $options: "i"}` condition for a term
without regex metacharacters: the term occurs, case-insensitively, as a
contiguous substring of the field value. -/

/-- `matchesAt needle hay` is true when `needle` is an initial segment of `hay`. -/
def matchesAt : List Char → List Char → Bool
  | [], _ => true
  | _ :: _, [] => false
  | c :: cs, d :: ds => c == d && matchesAt cs ds

/-- `occursIn needle hay` is true when `needle` occurs contiguously anywhere in `hay`. -/
def occursIn (needle : List Char) : List Char → Bool
  | [] => needle.isEmpty
  | d :: ds => matchesAt needle (d :: ds) || occursIn needle ds

/-- Semantics of `bson.M{field: bson.M{"$regex": term, "$options": "i"}}`
applied to the string stored in the field, for a literal (metacharacter-free)
search term: both sides are lowered character-wise before substring
matching. -/
def regexCI (term field : String) : Bool :=
  occursIn (term.data.map Char.toLower) (field.data.map Char.toLower)

/-! ### Data model — `internal/models/user_log.go` -/

/-- `LogEventType` is a string type in Go (`type LogEventType string`). -/
abbrev LogEventType := String

/-- `LogData` from `internal/models/user_log.go`.  The free-form
`map[string]interface{}` members are modelled as association lists of
string pairs; none of the verified operations inspects them. -/
structure LogData where
  action : String
  details : List (String × String)
  oldValues : List (String × String)
  newValues : List (String × String)
  error : String
  duration : Int
  statusCode : Int
deriving DecidableEq, Repr

/-- `UserLog` from `internal/models/user_log.go`: the MongoDB document.
`UserID` is `*string` (absent for system events), the bson tags mark
`user_id`, `ip_address`, `user_agent` (and `data.error` inside `LogData`)
as `omitempty`. -/
structure UserLog where
  id : String
  userID : Option String
  event : LogEventType
  data : LogData
  timestamp : Int
  ipAddress : String
  userAgent : String
deriving DecidableEq, Repr

/-- `LogFilterRequest` from `internal/models/user_log.go`. -/
structure LogFilterRequest where
  userID : Option String
  event : Option LogEventType
  startDate : Option Int
  endDate : Option Int
  ipAddress : String
  action : String
  page : Int
  pageSize : Int
deriving DecidableEq, Repr

/-- `UserLogsListResponse` from `internal/models/user_log.go`.  The Go
response carries `[]UserLogResponse`; `UserLog.ToResponse` repackages the
same event, data, timestamp and origin fields, so the model keeps the
records themselves. -/
structure UserLogsListResponse where
  logs : List UserLog
  total : Int
  page : Int
  pageSize : Int
  totalPages : Int
deriving DecidableEq, Repr

/-! ### Query / filter builder — `interfaces.go` -/

/-- `CalculateTotalPages` from `internal/repository/interfaces.go`. -/
def CalculateTotalPages (total : Int) (pageSize : Int) : Int :=
  if pageSize ≤ 0 then 0 else (total + pageSize - 1) / pageSize

/-- The effective page after `List`/`SearchLogs` apply their defaults:
`if filter.Page <= 0 { filter.Page = 1 }`. -/
def effPage (p : Int) : Int := if p ≤ 0 then 1 else p

/-- The effective page size after `List`/`SearchLogs` apply their defaults:
`if filter.PageSize <= 0 || filter.PageSize > 100 { filter.PageSize = 10 }`. -/
def effPageSize (ps : Int) : Int := if ps ≤ 0 ∨ 100 < ps then 10 else ps

/-- Predicate denoted by the bson document built by `buildLogFilter`
(`internal/repository/interfaces.go`), evaluated on one stored document:
equality on `user_id` and `event` when supplied, case-insensitive
substring on `ip_address` and `data.action` when supplied (matching an
`omitempty` field requires it to be present, i.e. non-empty), and an
inclusive `$gte`/`$lte` range on `timestamp`. -/
def logFilterMatch (f : LogFilterRequest) (l : UserLog) : Bool :=
  (match f.userID with
   | some u => (match l.userID with | some lu => lu == u | none => false)
   | none => true) &&
  (match f.event with | some e => l.event == e | none => true) &&
  (f.ipAddress == "" || (l.ipAddress != "" && regexCI f.ipAddress l.ipAddress)) &&
  (f.action == "" || regexCI f.action l.data.action) &&
  (match f.startDate with | some t1 => decide (t1 ≤ l.timestamp) | none => true) &&
  (match f.endDate with | some t2 => decide (l.timestamp ≤ t2) | none => true)

/-- Sort key of `SetSort(bson.D{{Key: "timestamp", Value: -1}})`:
latest first. -/
def tsGE (a b : UserLog) : Prop := b.timestamp ≤ a.timestamp

instance : DecidableRel tsGE :=
  fun a b => inferInstanceAs (Decidable (b.timestamp ≤ a.timestamp))

instance : IsTotal UserLog tsGE :=
  ⟨fun a b => Int.le_total b.timestamp a.timestamp⟩

instance : IsTrans UserLog tsGE :=
  ⟨fun _ _ _ hab hbc => le_trans hbc hab⟩

/-- `List` from `internal/repository/interfaces.go` (`userLogRepository`),
run against a model collection: apply page defaults, count the matching
documents, then return the page of the match set sorted by timestamp
descending, echoing page and page size. -/
def listLogs (store : List UserLog) (f : LogFilterRequest) : UserLogsListResponse :=
  let page := effPage f.page
  let pageSize := effPageSize f.pageSize
  let matched := store.filter (logFilterMatch f)
  let sorted := List.insertionSort tsGE matched
  { logs := (sorted.drop ((page - 1) * pageSize).toNat).take pageSize.toNat
    total := (matched.length : Int)
    page := page
    pageSize := pageSize
    totalPages := CalculateTotalPages (matched.length : Int) pageSize }

/-- Predicate denoted by the `$or` search document built inside
`SearchLogs`: a case-insensitive substring match on `event`,
`data.action`, `data.error` or `ip_address` (the latter two are
`omitempty` fields, so they must be present to match). -/
def searchMatch (term : String) (l : UserLog) : Bool :=
  regexCI term l.event ||
  regexCI term l.data.action ||
  (l.data.error != "" && regexCI term l.data.error) ||
  (l.ipAddress != "" && regexCI term l.ipAddress)

/-- What the spec's words claim the search matches on — event kind,
action, and error text only (no IP address).  Stated solely to compare
with `searchMatch`, which is translated from the source. -/
def specSearchMatch (term : String) (l : UserLog) : Bool :=
  regexCI term l.event ||
  regexCI term l.data.action ||
  regexCI term l.data.error

/-- `SearchLogs` from `internal/repository/interfaces.go`: page defaults,
then `$and` of the `buildLogFilter` document and the `$or` search
document, counted, sorted by timestamp descending and paged. -/
def SearchLogs (store : List UserLog) (term : String) (f : LogFilterRequest) :
    UserLogsListResponse :=
  let page := effPage f.page
  let pageSize := effPageSize f.pageSize
  let matched := store.filter (fun l => logFilterMatch f l && searchMatch term l)
  let sorted := List.insertionSort tsGE matched
  { logs := (sorted.drop ((page - 1) * pageSize).toNat).take pageSize.toNat
    total := (matched.length : Int)
    page := page
    pageSize := pageSize
    totalPages := CalculateTotalPages (matched.length : Int) pageSize }

/-! ### Event statistics — `GetEventStats` -/

/-- One day of model time (`time.AddDate(0, 0, -days)` modelled as linear
day arithmetic), in nanoseconds like Go's `time.Duration`. -/
def nsPerDay : Int := 86400000000000

/-- The `$match` stage of `GetEventStats`: timestamp within the trailing
`days`-day window ending at `now`, and, when a user id is supplied,
`user_id` equal to it (absent `user_id` fields never equal a supplied id). -/
def statsMatch (now : Int) (uid : Option String) (days : Int) (l : UserLog) : Bool :=
  decide (now - days * nsPerDay ≤ l.timestamp) &&
  (match uid with
   | some u => (match l.userID with | some lu => lu == u | none => false)
   | none => true)

/-- Accumulate the distinct `$group` keys in first-occurrence order. -/
def addKind (acc : List LogEventType) (e : LogEventType) : List LogEventType :=
  if e ∈ acc then acc else acc ++ [e]

/-- `GetEventStats` from `internal/repository/interfaces.go`: the
`$match`/`$group` aggregation produces one `(event, count)` group per
distinct event value among the matching documents — events with no
matching document yield no group. -/
def GetEventStats (store : List UserLog) (now : Int) (uid : Option String)
    (days : Int) : List (LogEventType × Nat) :=
  let matched := store.filter (statsMatch now uid days)
  let kinds := (matched.map (·.event)).foldl addKind []
  kinds.map (fun e => (e, (matched.filter (fun l => l.event == e)).length))

/-! ### Ingestion pipeline — `userLogRepository` channel, worker and `Close`

`logChannel` (capacity 1000), the worker's local `batch` (flush at 10 or
on the 5-second ticker), the MongoDB collection, and whether the worker
goroutine has returned. -/

structure PipelineState where
  queue : List UserLog
  batch : List UserLog
  store : List UserLog
  stopped : Bool
deriving DecidableEq, Repr

def initPipeline : PipelineState :=
  { queue := [], batch := [], store := [], stopped := false }

/-- `logChannel` buffer size from `NewUserLogRepository`. -/
def queueCapacity : Nat := 1000

/-- `batch` flush threshold from `startAsyncProcessor`. -/
def batchLimit : Nat := 10

/-- The timestamp fill-in shared by `Create` and `CreateAsync`:
`if logEntry.Timestamp.IsZero() { logEntry.Timestamp = time.Now() }`. -/
def stamp (l : UserLog) (now : Int) : UserLog :=
  if l.timestamp = 0 then { l with timestamp := now } else l

/-- `processBatch`: `BulkCreate` appends the whole batch to the
collection; on failure the error is logged and the batch is dropped. -/
def flushTo (store batch : List UserLog) (flushFails : Bool) : List UserLog :=
  if flushFails then store else store ++ batch

/-- `CreateAsync` from `internal/repository/interfaces.go`: stamp the
timestamp, then a non-blocking channel send; if the channel is full, fall
back to the synchronous `Create` (an `InsertOne`, whose possible failure
is the `storeFails` parameter) and return its result. -/
def CreateAsync (s : PipelineState) (l : UserLog) (storeFails : Bool) (now : Int) :
    PipelineState × Except String Unit :=
  let l := stamp l now
  if s.queue.length < queueCapacity then
    ({ s with queue := s.queue ++ [l] }, Except.ok ())
  else if storeFails then
    (s, Except.error "failed to create log entry")
  else
    ({ s with store := s.store ++ [l] }, Except.ok ())

/-- The `case logEntry := <-r.logChannel` arm of the worker loop: append
to the batch; once the batch reaches 10, flush it immediately and reset. -/
def recvStep (s : PipelineState) (flushFails : Bool) : PipelineState :=
  if s.stopped then s else
  match s.queue with
  | [] => s
  | l :: rest =>
    let b := s.batch ++ [l]
    if batchLimit ≤ b.length then
      { s with queue := rest, batch := [], store := flushTo s.store b flushFails }
    else
      { s with queue := rest, batch := b }

/-- The `case <-ticker.C` arm: flush the batch if non-empty. -/
def tickStep (s : PipelineState) (flushFails : Bool) : PipelineState :=
  if s.stopped then s else
  if s.batch.isEmpty then s
  else { s with batch := [], store := flushTo s.store s.batch flushFails }

/-- The `case <-r.stopChan` arm, reached once `Close` has closed
`stopChan`: flush the current batch if non-empty, then `return` —
the worker goroutine terminates.  Nothing reads `logChannel` again. -/
def stopStep (s : PipelineState) (flushFails : Bool) : PipelineState :=
  if s.stopped then s else
  { s with batch := [],
           store := if s.batch.isEmpty then s.store else flushTo s.store s.batch flushFails,
           stopped := true }

/-- One interleaving event of the pipeline: a producer call to
`CreateAsync`, or one iteration of the worker's `select`. -/
inductive PEvent where
  | submit (l : UserLog) (storeFails : Bool) (now : Int)
  | recv (flushFails : Bool)
  | tick (flushFails : Bool)
  | stop (flushFails : Bool)

def pstep (s : PipelineState) : PEvent → PipelineState
  | .submit l fails now => (CreateAsync s l fails now).1
  | .recv fails => recvStep s fails
  | .tick fails => tickStep s fails
  | .stop fails => stopStep s fails

/-- States reachable from the freshly constructed repository
(`NewUserLogRepository`) under any interleaving of producer submissions
and worker steps. -/
inductive Reach : PipelineState → Prop where
  | init : Reach initPipeline
  | step {s : PipelineState} : Reach s → ∀ e : PEvent, Reach (pstep s e)

/-! ### Rate limiter — `internal/middleware/security.go`

`Visitor.limiter` is a buffered channel of capacity `burst`; its model is
the current occupancy `used` plus, for each successful send, a pending
delayed receive scheduled `rate` later.  Evicted-and-recreated visitors
get a fresh channel, so each created visitor carries a generation tag and
a pending receive only drains the channel it was started on. -/

structure Visitor where
  used : Nat
  gen : Nat
  lastSeen : Int
deriving DecidableEq, Repr

structure RLState where
  visitors : List (String × Visitor)
  pending : List (String × Nat × Int)
  nextGen : Nat
deriving DecidableEq, Repr

def initRL : RLState := { visitors := [], pending := [], nextGen := 0 }

/-- First-match association-list lookup (the `rl.visitors[ip]` read). -/
def lookupV (m : List (String × Visitor)) (k : String) : Option Visitor :=
  match m with
  | [] => none
  | (k', v) :: rest => if k' == k then some v else lookupV rest k

/-- Association-list update (the `rl.visitors[ip] = visitor` write):
replace the first binding of `k`, or append one. -/
def upd (m : List (String × Visitor)) (k : String) (v : Visitor) :
    List (String × Visitor) :=
  match m with
  | [] => [(k, v)]
  | (k', w) :: rest => if k' == k then (k, v) :: rest else (k', w) :: upd rest k v

/-- `time.Hour` in nanoseconds, the eviction threshold of `cleanupVisitors`. -/
def hourLen : Int := 3600000000000

/-- `Allow` from `internal/middleware/security.go`: lazily create the
visitor (empty channel of capacity `burst`), unconditionally refresh
`lastSeen` to now, then try a non-blocking send on `visitor.limiter`; on
success spawn the delayed receive (`time.Sleep(rl.rate)` then drain one
slot) and admit, otherwise reject immediately. -/
def Allow (rate : Int) (burst : Nat) (s : RLState) (ip : String) (t : Int) :
    RLState × Bool :=
  match lookupV s.visitors ip with
  | none =>
    let g := s.nextGen
    if 0 < burst then
      ({ visitors := upd s.visitors ip ⟨1, g, t⟩,
         pending := (ip, g, t + rate) :: s.pending,
         nextGen := g + 1 }, true)
    else
      ({ visitors := upd s.visitors ip ⟨0, g, t⟩,
         pending := s.pending,
         nextGen := g + 1 }, false)
  | some v =>
    if v.used < burst then
      ({ s with visitors := upd s.visitors ip ⟨v.used + 1, v.gen, t⟩,
                pending := (ip, v.gen, t + rate) :: s.pending }, true)
    else
      ({ s with visitors := upd s.visitors ip ⟨v.used, v.gen, t⟩ }, false)

/-- `n` consecutive `Allow` calls for the same address at the same
instant, collecting the admission results in order. -/
def allowTimes (rate : Int) (burst : Nat) :
    RLState → String → Int → Nat → RLState × List Bool
  | s, _, _, 0 => (s, [])
  | s, ip, t, n + 1 =>
    let r := Allow rate burst s ip t
    let rest := allowTimes rate burst r.1 ip t n
    (rest.1, r.2 :: rest.2)

/-- One delayed receive completing: drain one slot from the visitor's
channel — only if that visitor (generation) still is the one in the map. -/
def fireOne (s : RLState) (ip : String) (g : Nat) : RLState :=
  match lookupV s.visitors ip with
  | some v =>
    if v.gen == g then
      { s with visitors := upd s.visitors ip { v with used := v.used - 1 } }
    else s
  | none => s

/-- Let wall-clock time reach `t`: every delayed receive whose schedule
time is ≤ `t` has completed. -/
def elapse (s : RLState) (t : Int) : RLState :=
  let due := s.pending.filter (fun p => decide (p.2.2 ≤ t))
  let rest := s.pending.filter (fun p => !(decide (p.2.2 ≤ t)))
  due.foldl (fun acc p => fireOne acc p.1 p.2.1) { s with pending := rest }

/-- One pass of the `cleanupVisitors` sweep at wall-clock time `t`:
delete every visitor with `time.Since(visitor.lastSeen) > time.Hour`. -/
def cleanupVisitors (s : RLState) (t : Int) : RLState :=
  { s with visitors := s.visitors.filter (fun kv => !(decide (hourLen < t - kv.2.lastSeen))) }

/-! ### Concrete sample inputs used by closed theorems -/

def sampleData : LogData := ⟨"create", [], [], [], "", 0, 0⟩

def sampleLog (ts : Int) : UserLog := ⟨"", none, "USER_CREATED", sampleData, ts, "", ""⟩

/-- A log record whose IP address — and no other field — contains "99". -/
def ipLog : UserLog := ⟨"id1", none, "USER_CREATED", sampleData, 10, "10.0.0.99", "agent"⟩

/-- A filter with no constraints and in-range paging. -/
def emptyFilter : LogFilterRequest := ⟨none, none, none, none, "", "", 1, 10⟩

/-- A record far older than any trailing stats window anchored near time 0. -/
def oldLog : UserLog := sampleLog (-1000000000000000000)

/-- A pipeline state whose ingestion queue is at its 1000-record capacity. -/
def fullPipeline : PipelineState :=
  { queue := List.replicate 1000 (sampleLog 7), batch := [], store := [], stopped := false }

/-! ## Theorems -/

/-- **C9.** In `List` and `SearchLogs`, a requested pageSize that is ≤ 0 or
greater than 100 is replaced by the default 10 (not clamped to a bound),
while a requested pageSize already in [1,100] is used unchanged. -/
theorem C9_pagesize_default_not_clamp (store : List UserLog) (term : String)
    (f : LogFilterRequest) :
    ((f.pageSize ≤ 0 ∨ 100 < f.pageSize) →
      (listLogs store f).pageSize = 10 ∧ (SearchLogs store term f).pageSize = 10)
    ∧ (1 ≤ f.pageSize → f.pageSize ≤ 100 →
      (listLogs store f).pageSize = f.pageSize
      ∧ (SearchLogs store term f).pageSize = f.pageSize) := by
  constructor
  · intro h
    simp [listLogs, SearchLogs, effPageSize, if_pos h]
  · intro h1 h2
    have h : ¬(f.pageSize ≤ 0 ∨ 100 < f.pageSize) := by omega
    simp [listLogs, SearchLogs, effPageSize, if_neg h]

/-- Witness for C9: pageSize 150 yields pages of 10 (not 100); pageSize 37
is kept. -/
theorem C9_witness :
    (listLogs [] (⟨none, none, none, none, "", "", 1, 150⟩ : LogFilterRequest)).pageSize = 10
    ∧ (listLogs [] (⟨none, none, none, none, "", "", 1, 37⟩ : LogFilterRequest)).pageSize = 37 :=
  ⟨((C9_pagesize_default_not_clamp [] "" _).1 (Or.inr (by decide))).1,
   ((C9_pagesize_default_not_clamp [] "" _).2 (by decide) (by decide)).1⟩

set_option maxRecDepth 100000 in
/-- **C2 counterexample.** The claim says `CreateAsync` never returns an
error: on the concrete full-queue state, with the store write failing, it
returns `Except.error` to its caller. -/
theorem C2_counterexample_fallback_error_propagates :
    (CreateAsync fullPipeline (sampleLog 7) true 0).2
      = Except.error "failed to create log entry" := rfl

/-- **C2 amended.** `CreateAsync` enqueues without error while the queue is
below capacity; when the queue is full it degrades to a synchronous direct
write of that one record (degrade-not-drop when the write succeeds), but
the fallback write's own failure is *returned to the caller*, not
swallowed. -/
theorem C2_amended_fallback_propagates_error (s : PipelineState) (l : UserLog)
    (storeFails : Bool) (now : Int) :
    (s.queue.length < 1000 →
      CreateAsync s l storeFails now
        = ({ s with queue := s.queue ++ [stamp l now] }, Except.ok ()))
    ∧ (1000 ≤ s.queue.length → storeFails = false →
      CreateAsync s l storeFails now
        = ({ s with store := s.store ++ [stamp l now] }, Except.ok ()))
    ∧ (1000 ≤ s.queue.length → storeFails = true →
      CreateAsync s l storeFails now
        = (s, Except.error "failed to create log entry")) := by
  refine ⟨fun h => ?_, fun h hf => ?_, fun h hf => ?_⟩
  · simp [CreateAsync, queueCapacity, h]
  · have h' : ¬ s.queue.length < queueCapacity := by simp [queueCapacity]; omega
    simp [CreateAsync, h', hf]
  · have h' : ¬ s.queue.length < queueCapacity := by simp [queueCapacity]; omega
    simp [CreateAsync, h', hf]

set_option maxRecDepth 100000 in
/-- Witness for C2 amended: below capacity the call succeeds; at capacity
with a failing store write, the error is returned. -/
theorem C2_amended_witness :
    (CreateAsync initPipeline (sampleLog 7) false 0
      = ({ initPipeline with queue := initPipeline.queue ++ [stamp (sampleLog 7) 0] },
         Except.ok ()))
    ∧ (CreateAsync fullPipeline (sampleLog 7) true 0
      = (fullPipeline, Except.error "failed to create log entry")) :=
  ⟨(C2_amended_fallback_propagates_error initPipeline (sampleLog 7) false 0).1
      (by decide),
   (C2_amended_fallback_propagates_error fullPipeline (sampleLog 7) true 0).2.2
      (by decide) rfl⟩

/-- **C1.** A record successfully enqueued (`CreateAsync` returns ok) is
still in the queue, and absent from the store, after the worker handles
the shutdown signal and terminates: the stop arm flushes only the in-hand
batch and never drains `logChannel`. -/
theorem C1_close_leaves_queued_record_unwritten :
    (CreateAsync initPipeline (sampleLog 5) false 5).2 = Except.ok ()
    ∧ (stopStep (CreateAsync initPipeline (sampleLog 5) false 5).1 false).stopped = true
    ∧ (stopStep (CreateAsync initPipeline (sampleLog 5) false 5).1 false).queue = [sampleLog 5]
    ∧ (stopStep (CreateAsync initPipeline (sampleLog 5) false 5).1 false).store = [] := by
  refine ⟨rfl, rfl, rfl, rfl⟩

/-- Elements of a fold over `addKind` are the seed's and the input's. -/
theorem mem_foldl_addKind (xs : List LogEventType) :
    ∀ acc e, e ∈ xs.foldl addKind acc ↔ e ∈ acc ∨ e ∈ xs := by
  induction xs with
  | nil => simp
  | cons x xs ih =>
    intro acc e
    rw [List.foldl_cons, ih]
    unfold addKind
    by_cases hx : x ∈ acc
    · simp only [if_pos hx, List.mem_cons]
      constructor
      · rintro (h | h)
        · exact Or.inl h
        · exact Or.inr (Or.inr h)
      · rintro (h | rfl | h)
        · exact Or.inl h
        · exact Or.inl hx
        · exact Or.inr h
    · simp only [if_neg hx, List.mem_append, List.mem_singleton, List.mem_cons]
      tauto

/-- **C8.** `GetEventStats` has an entry for an event kind exactly when
some record in the window (and actor scope) has that kind; present counts
are positive, and a scope whose records all fall outside the window gives
the empty mapping. -/
theorem C8_event_stats_support (store : List UserLog) (now : Int)
    (uid : Option String) (days : Int) :
    (∀ e, (∃ c, (e, c) ∈ GetEventStats store now uid days) ↔
        ∃ l, l ∈ store ∧ statsMatch now uid days l = true ∧ l.event = e)
    ∧ (∀ e c, (e, c) ∈ GetEventStats store now uid days → 0 < c)
    ∧ ((∀ l, l ∈ store → statsMatch now uid days l = false) →
        GetEventStats store now uid days = []) := by
  have hkinds : ∀ e, e ∈ ((store.filter (statsMatch now uid days)).map
      (·.event)).foldl addKind [] ↔
      ∃ l, l ∈ store ∧ statsMatch now uid days l = true ∧ l.event = e := by
    intro e
    rw [mem_foldl_addKind]
    simp only [List.not_mem_nil, false_or, List.mem_map, List.mem_filter]
    constructor
    · rintro ⟨l, ⟨hl, hm⟩, he⟩
      exact ⟨l, hl, hm, he⟩
    · rintro ⟨l, hl, hm, he⟩
      exact ⟨l, ⟨hl, hm⟩, he⟩
  refine ⟨fun e => ?_, fun e c hc => ?_, fun h => ?_⟩
  · constructor
    · rintro ⟨c, hc⟩
      simp only [GetEventStats, List.mem_map] at hc
      obtain ⟨e', he', heq⟩ := hc
      rw [Prod.mk.injEq] at heq
      obtain ⟨rfl, -⟩ := heq
      exact (hkinds _).mp he'
    · intro hex
      refine ⟨((store.filter (statsMatch now uid days)).filter
        (fun l => l.event == e)).length, ?_⟩
      simp only [GetEventStats, List.mem_map]
      exact ⟨e, (hkinds e).mpr hex, rfl⟩
  · simp only [GetEventStats, List.mem_map] at hc
    obtain ⟨e', he', heq⟩ := hc
    rw [Prod.mk.injEq] at heq
    obtain ⟨rfl, rfl⟩ := heq
    obtain ⟨l, hl, hm, he⟩ := (hkinds _).mp he'
    have hlmem : l ∈ (store.filter (statsMatch now uid days)).filter
        (fun x => x.event == e') := by
      rw [List.mem_filter, List.mem_filter]
      exact ⟨⟨hl, hm⟩, by simp [he]⟩
    exact List.length_pos_of_mem hlmem
  · have hf : store.filter (statsMatch now uid days) = [] := by
      rw [List.filter_eq_nil_iff]
      intro a ha
      simp [h a ha]
    simp [GetEventStats, hf]

/-- Witness for C8: an actor store whose only record is far older than the
7-day window yields the empty mapping. -/
theorem C8_witness :
    (∀ l, l ∈ [oldLog] → statsMatch 0 none 7 l = false)
    ∧ GetEventStats [oldLog] 0 none 7 = [] :=
  have h : ∀ l, l ∈ [oldLog] → statsMatch 0 none 7 l = false := by decide
  ⟨h, (C8_event_stats_support [oldLog] 0 none 7).2.2 h⟩

/-- The effective page is always at least 1. -/
theorem one_le_effPage (p : Int) : 1 ≤ effPage p := by
  unfold effPage
  split_ifs <;> omega

/-- The effective page size always lands in [1, 100]. -/
theorem effPageSize_bounds (ps : Int) : 1 ≤ effPageSize ps ∧ effPageSize ps ≤ 100 := by
  unfold effPageSize
  split_ifs with h
  · omega
  · rw [not_or] at h
    omega

/-- The returned page of records is a sublist of the sorted match set. -/
theorem page_sublist (m : List UserLog) (k n : Nat) :
    List.Sublist ((m.drop k).take n) m :=
  (List.take_sublist _ _).trans (List.drop_sublist _ _)

/-- **C7.** With a supplied time range `[t1, t2]`, `List` returns only
records with timestamp in that inclusive range, sorted by timestamp
descending; the effective page is ≥ 1 and the effective page size lies in
[1, 100] regardless of the requested values, and both are echoed in the
response. -/
theorem C7_list_range_sorted_bounds (store : List UserLog) (f : LogFilterRequest)
    (t1 t2 : Int) (h1 : f.startDate = some t1) (h2 : f.endDate = some t2) :
    (∀ l, l ∈ (listLogs store f).logs → t1 ≤ l.timestamp ∧ l.timestamp ≤ t2)
    ∧ (listLogs store f).logs.Pairwise tsGE
    ∧ 1 ≤ (listLogs store f).page
    ∧ 1 ≤ (listLogs store f).pageSize ∧ (listLogs store f).pageSize ≤ 100
    ∧ (listLogs store f).page = effPage f.page
    ∧ (listLogs store f).pageSize = effPageSize f.pageSize := by
  have hlogs : (listLogs store f).logs =
      ((List.insertionSort tsGE (store.filter (logFilterMatch f))).drop
        ((effPage f.page - 1) * effPageSize f.pageSize).toNat).take
        (effPageSize f.pageSize).toNat := rfl
  have hsub : List.Sublist (listLogs store f).logs
      (List.insertionSort tsGE (store.filter (logFilterMatch f))) := by
    rw [hlogs]; exact page_sublist _ _ _
  refine ⟨?_, ?_, ?_, (effPageSize_bounds f.pageSize).1,
    (effPageSize_bounds f.pageSize).2, rfl, rfl⟩
  · intro l hl
    have hmem : l ∈ List.insertionSort tsGE (store.filter (logFilterMatch f)) :=
      hsub.subset hl
    rw [List.mem_insertionSort, List.mem_filter] at hmem
    have hml := hmem.2
    simp only [logFilterMatch, h1, h2, Bool.and_eq_true, decide_eq_true_eq] at hml
    exact ⟨hml.1.2, hml.2⟩
  · exact List.Pairwise.sublist hsub (List.sorted_insertionSort tsGE _)
  · exact one_le_effPage f.page

/-- Witness for C7 at a concrete store and time range. -/
theorem C7_witness :
    (⟨none, none, some 1, some 10, "", "", 1, 10⟩ : LogFilterRequest).startDate = some 1
    ∧ (∀ l, l ∈ (listLogs [sampleLog 3, sampleLog 5]
        ⟨none, none, some 1, some 10, "", "", 1, 10⟩).logs →
        1 ≤ l.timestamp ∧ l.timestamp ≤ 10) :=
  ⟨rfl, (C7_list_range_sorted_bounds [sampleLog 3, sampleLog 5] _ 1 10 rfl rfl).1⟩

/-- **C3 counterexample.** A record whose only occurrence of the search
term is in its IP-address field is returned by `SearchLogs`, although the
term occurs in none of the three fields the claim lists (event kind,
action, error text). -/
theorem C3_counterexample_ip_field_matches :
    (SearchLogs [ipLog] "99" emptyFilter).logs = [ipLog]
    ∧ specSearchMatch "99" ipLog = false := by
  decide

/-- **C3 amended.** When the results fit on the (first) requested page,
`SearchLogs` returns a record exactly when the base filter holds and the
term occurs as a case-insensitive substring in the event kind, the
action, the error-text field, *or the IP-address field* (`searchMatch`). -/
theorem C3_amended_search_match_iff (store : List UserLog) (term : String)
    (f : LogFilterRequest) (hp : f.page = 1)
    (hn : (store.filter (fun l => logFilterMatch f l && searchMatch term l)).length
          ≤ (effPageSize f.pageSize).toNat) :
    ∀ l, l ∈ (SearchLogs store term f).logs ↔
      (l ∈ store ∧ logFilterMatch f l = true ∧ searchMatch term l = true) := by
  intro l
  have hlen2 : (List.insertionSort tsGE
      (store.filter (fun l => logFilterMatch f l && searchMatch term l))).length
      ≤ (effPageSize f.pageSize).toNat := by
    rw [(List.perm_insertionSort tsGE _).length_eq]
    exact hn
  have hlogs : (SearchLogs store term f).logs = List.insertionSort tsGE
      (store.filter (fun l => logFilterMatch f l && searchMatch term l)) := by
    show ((List.insertionSort tsGE
        (store.filter (fun l => logFilterMatch f l && searchMatch term l))).drop
        ((effPage f.page - 1) * effPageSize f.pageSize).toNat).take
        (effPageSize f.pageSize).toNat = _
    rw [hp]
    norm_num [effPage]
    exact hn
  rw [hlogs, List.mem_insertionSort, List.mem_filter, Bool.and_eq_true]

/-- Strengthened step invariant of the ingestion pipeline: the queue never
exceeds its capacity and the batch, observed between worker steps, has at
most 9 records (a 10th arrival flushes it inside the same step). -/
def PInv (s : PipelineState) : Prop :=
  s.queue.length ≤ 1000 ∧ s.batch.length ≤ 9

theorem pinv_step (s : PipelineState) (e : PEvent) (h : PInv s) : PInv (pstep s e) := by
  obtain ⟨hqn, hbn⟩ := h
  cases e with
  | submit l fails now =>
    show PInv (CreateAsync s l fails now).1
    unfold CreateAsync
    dsimp only
    split_ifs with hq hf
    · refine ⟨?_, hbn⟩
      simp only [List.length_append, List.length_singleton]
      simp only [queueCapacity] at hq
      omega
    · exact ⟨hqn, hbn⟩
    · exact ⟨hqn, hbn⟩
  | recv fails =>
    show PInv (recvStep s fails)
    unfold recvStep
    split_ifs with hs
    · exact ⟨hqn, hbn⟩
    cases hq : s.queue with
    | nil => exact ⟨hqn, hbn⟩
    | cons l rest =>
      rw [hq] at hqn
      simp only [List.length_cons] at hqn
      dsimp only
      split_ifs with hb
      · refine ⟨?_, ?_⟩
        · show rest.length ≤ 1000
          omega
        · show ([] : List UserLog).length ≤ 9
          simp
      · refine ⟨?_, ?_⟩
        · show rest.length ≤ 1000
          omega
        · show (s.batch ++ [l]).length ≤ 9
          simp only [batchLimit, List.length_append, List.length_singleton] at hb ⊢
          omega
  | tick fails =>
    show PInv (tickStep s fails)
    unfold tickStep
    split_ifs
    · exact ⟨hqn, hbn⟩
    · exact ⟨hqn, hbn⟩
    · exact ⟨hqn, by simp⟩
  | stop fails =>
    show PInv (stopStep s fails)
    unfold stopStep
    split_ifs
    · exact ⟨hqn, hbn⟩
    · exact ⟨hqn, by simp⟩
    · exact ⟨hqn, by simp⟩

theorem reach_inv {s : PipelineState} (h : Reach s) : PInv s := by
  induction h with
  | init => exact ⟨by simp [initPipeline], by simp [initPipeline]⟩
  | step _ e ih => exact pinv_step _ e ih

/-- **C5.** In every reachable pipeline state the ingestion queue holds at
most 1000 records and the worker's batch at most 10; and a receive that
brings the batch to 10 flushes it in that same step (batch reset, bulk
write attempted) without waiting for the timer. -/
theorem C5_queue_batch_bounds (s : PipelineState) (h : Reach s) :
    (s.queue.length ≤ 1000 ∧ s.batch.length ≤ 10)
    ∧ (∀ l rest fails, s.batch.length = 9 → s.queue = l :: rest → s.stopped = false →
        (recvStep s fails).batch = []
        ∧ (recvStep s fails).store = flushTo s.store (s.batch ++ [l]) fails) := by
  obtain ⟨hq1, hb9⟩ := reach_inv h
  refine ⟨⟨hq1, by omega⟩, ?_⟩
  intro l rest fails hb hq hs
  unfold recvStep
  rw [hs, hq]
  have hlen : batchLimit ≤ s.batch.length + 1 := by
    simp [batchLimit, hb]
  simp [hlen]

/-- Witness for C5 at the initial state. -/
theorem C5_witness :
    Reach initPipeline
    ∧ initPipeline.queue.length ≤ 1000 ∧ initPipeline.batch.length ≤ 10 :=
  ⟨Reach.init, (C5_queue_batch_bounds initPipeline Reach.init).1.1,
   (C5_queue_batch_bounds initPipeline Reach.init).1.2⟩

/-- Witness for C3 amended: the match set of the counterexample store fits
on one page, and membership coincides with the four-field predicate. -/
theorem C3_amended_witness :
    emptyFilter.page = 1
    ∧ (ipLog ∈ (SearchLogs [ipLog] "99" emptyFilter).logs ↔
      (ipLog ∈ [ipLog] ∧ logFilterMatch emptyFilter ipLog = true
        ∧ searchMatch "99" ipLog = true)) :=
  ⟨rfl, C3_amended_search_match_iff [ipLog] "99" emptyFilter rfl (by decide) ipLog⟩

/-! ### Association-list lemmas for the rate-limiter visitor map -/

theorem lookupV_upd_self (m : List (String × Visitor)) (k : String) (v : Visitor) :
    lookupV (upd m k v) k = some v := by
  induction m with
  | nil => simp [upd, lookupV]
  | cons kv rest ih =>
    obtain ⟨k', w⟩ := kv
    by_cases hk : k' == k
    · simp [upd, hk, lookupV]
    · simp [upd, hk, lookupV, ih]

theorem upd_upd (m : List (String × Visitor)) (k : String) (v w : Visitor) :
    upd (upd m k v) k w = upd m k w := by
  induction m with
  | nil => simp [upd]
  | cons kv rest ih =>
    obtain ⟨k', x⟩ := kv
    by_cases hk : k' == k
    · simp [upd, hk]
    · simp [upd, hk, ih]

theorem upd_self {m : List (String × Visitor)} {k : String} {v : Visitor}
    (h : lookupV m k = some v) : upd m k v = m := by
  induction m with
  | nil => simp [lookupV] at h
  | cons kv rest ih =>
    obtain ⟨k', w⟩ := kv
    by_cases hk : k' == k
    · simp only [lookupV, if_pos hk, Option.some.injEq] at h
      cases eq_of_beq hk
      rw [h]
      simp [upd]
    · simp only [lookupV, if_neg hk] at h
      simp [upd, hk, ih h]

theorem lookupV_filter_keep {m : List (String × Visitor)} {k : String} {v : Visitor}
    (p : String × Visitor → Bool)
    (h : lookupV m k = some v) (hp : p (k, v) = true) :
    lookupV (m.filter p) k = some v := by
  induction m with
  | nil => simp [lookupV] at h
  | cons kv rest ih =>
    obtain ⟨k', w⟩ := kv
    by_cases hk : k' == k
    · simp only [lookupV, if_pos hk, Option.some.injEq] at h
      cases eq_of_beq hk
      subst h
      simp [List.filter_cons, hp, lookupV]
    · simp only [lookupV, if_neg hk] at h
      cases hpk : p (k', w) <;>
        simp [List.filter_cons, hpk, lookupV, hk, ih h]

theorem lookupV_eq_none_of_not_mem {m : List (String × Visitor)} {k : String}
    (h : k ∉ m.map Prod.fst) : lookupV m k = none := by
  induction m with
  | nil => rfl
  | cons kv rest ih =>
    obtain ⟨k', w⟩ := kv
    simp only [List.map_cons, List.mem_cons] at h
    push_neg at h
    have hk : (k' == k) = false := by
      simp only [beq_eq_false_iff_ne, ne_eq]
      exact fun hkk => h.1 hkk.symm
    simp [lookupV, hk, ih h.2]

theorem lookupV_filter_none {m : List (String × Visitor)} {k : String} {v : Visitor}
    (p : String × Visitor → Bool) (hnd : (m.map Prod.fst).Nodup)
    (h : lookupV m k = some v) (hp : p (k, v) = false) :
    lookupV (m.filter p) k = none := by
  induction m with
  | nil => simp [lookupV] at h
  | cons kv rest ih =>
    obtain ⟨k', w⟩ := kv
    simp only [List.map_cons, List.nodup_cons] at hnd
    by_cases hk : k' == k
    · simp only [lookupV, if_pos hk, Option.some.injEq] at h
      cases eq_of_beq hk
      subst h
      simp only [List.filter_cons, hp]
      apply lookupV_eq_none_of_not_mem
      intro hmem
      exact hnd.1 (((List.filter_sublist rest).map Prod.fst).subset hmem)
    · simp only [lookupV, if_neg hk] at h
      cases hpk : p (k', w) <;>
        simp [List.filter_cons, hpk, lookupV, hk, ih hnd.2 h]

/-- `Allow` always rewrites the caller's visitor entry, setting its
last-seen timestamp to the call time — whatever the admission outcome. -/
theorem allow_visitor (rate : Int) (B : Nat) (s : RLState) (ip : String) (t : Int) :
    ∃ u g, (Allow rate B s ip t).1.visitors = upd s.visitors ip ⟨u, g, t⟩ := by
  cases hl : lookupV s.visitors ip with
  | none =>
    by_cases hb : 0 < B
    · exact ⟨1, s.nextGen, by simp [Allow, hl, hb]⟩
    · exact ⟨0, s.nextGen, by simp [Allow, hl, hb]⟩
  | some v =>
    by_cases hb : v.used < B
    · exact ⟨v.used + 1, v.gen, by simp [Allow, hl, hb]⟩
    · exact ⟨v.used, v.gen, by simp [Allow, hl, hb]⟩

/-- **C10.** Every `Allow` call — admitted or rejected — stamps the
client's last-seen time with the call time before the consume attempt, so
a sweep within one hour of the client's latest call never evicts it. -/
theorem C10_allow_updates_lastseen (rate : Int) (B : Nat) (s : RLState)
    (ip : String) (t ts : Int) (h : ts - t ≤ hourLen) :
    ∃ v : Visitor, lookupV (Allow rate B s ip t).1.visitors ip = some v
      ∧ v.lastSeen = t
      ∧ lookupV (cleanupVisitors (Allow rate B s ip t).1 ts).visitors ip = some v := by
  obtain ⟨u, g, hv⟩ := allow_visitor rate B s ip t
  refine ⟨⟨u, g, t⟩, ?_, rfl, ?_⟩
  · rw [hv]
    exact lookupV_upd_self _ _ _
  · unfold cleanupVisitors
    apply lookupV_filter_keep
    · rw [hv]
      exact lookupV_upd_self _ _ _
    · have hno : ¬ (hourLen < ts - t) := by omega
      simp [hno]

/-- Witness for C10 at concrete values. -/
theorem C10_witness :
    (0 : Int) - 0 ≤ hourLen
    ∧ ∃ v : Visitor, lookupV (Allow 1 1 initRL "c" 0).1.visitors "c" = some v
      ∧ v.lastSeen = 0
      ∧ lookupV (cleanupVisitors (Allow 1 1 initRL "c" 0).1 0).visitors "c" = some v :=
  ⟨by decide, C10_allow_updates_lastseen 1 1 initRL "c" 0 0 (by decide)⟩

/-! ### Rate-limiter behaviour lemmas -/

theorem allowTimes_zero (rate : Int) (burst : Nat) (s : RLState) (ip : String)
    (t : Int) : allowTimes rate burst s ip t 0 = (s, []) := rfl

theorem allowTimes_succ (rate : Int) (burst : Nat) (s : RLState) (ip : String)
    (t : Int) (n : Nat) :
    allowTimes rate burst s ip t (n + 1)
      = ((allowTimes rate burst (Allow rate burst s ip t).1 ip t n).1,
         (Allow rate burst s ip t).2
           :: (allowTimes rate burst (Allow rate burst s ip t).1 ip t n).2) := rfl

theorem replicate_append_cons {α : Type _} (k : Nat) (a : α) (l : List α) :
    List.replicate k a ++ a :: l = List.replicate (k + 1) a ++ l := by
  rw [List.replicate_succ', List.append_assoc]
  rfl

/-- Admission pattern of `n` immediate calls starting from a present
visitor with `u` slots consumed: the remaining `B - u` slots admit, every
later call is rejected. -/
theorem allowTimes_results (rate : Int) (B : Nat) (ip : String) (t : Int) :
    ∀ (n : Nat) (s : RLState) (u g : Nat) (t0 : Int),
      lookupV s.visitors ip = some ⟨u, g, t0⟩ → u ≤ B →
      (allowTimes rate B s ip t n).2
        = List.replicate (min n (B - u)) true ++ List.replicate (n - (B - u)) false := by
  intro n
  induction n with
  | zero =>
    intro s u g t0 h hu
    simp [allowTimes_zero]
  | succ n ih =>
    intro s u g t0 h hu
    rw [allowTimes_succ]
    by_cases hb : u < B
    · have hstep : Allow rate B s ip t
          = ({ s with visitors := upd s.visitors ip ⟨u + 1, g, t⟩,
                      pending := (ip, g, t + rate) :: s.pending }, true) := by
        simp [Allow, h, hb]
      rw [hstep]
      dsimp only
      have hl' : lookupV ({ s with
          visitors := upd s.visitors ip ⟨u + 1, g, t⟩,
          pending := (ip, g, t + rate) :: s.pending } : RLState).visitors ip
          = some ⟨u + 1, g, t⟩ := lookupV_upd_self _ _ _
      rw [ih _ (u + 1) g t hl' (by omega)]
      have h1 : min (n + 1) (B - u) = min n (B - (u + 1)) + 1 := by omega
      have h2 : (n + 1) - (B - u) = n - (B - (u + 1)) := by omega
      rw [h1, h2, List.replicate_succ]
      rfl
    · have hstep : Allow rate B s ip t
          = ({ s with visitors := upd s.visitors ip ⟨u, g, t⟩ }, false) := by
        simp [Allow, h, hb]
      rw [hstep]
      dsimp only
      have hl' : lookupV ({ s with
          visitors := upd s.visitors ip ⟨u, g, t⟩ } : RLState).visitors ip
          = some ⟨u, g, t⟩ := lookupV_upd_self _ _ _
      rw [ih _ u g t hl' hu]
      have hBu : B - u = 0 := by omega
      rw [hBu]
      simp [List.replicate_succ]

/-- Final state of `n + 1` immediate calls from a present visitor: `used`
saturates at the burst, `lastSeen` moves to the call time, one pending
release per admission is stacked, and no new generation is minted. -/
theorem allowTimes_state (rate : Int) (B : Nat) (ip : String) (t : Int) :
    ∀ (n : Nat) (s : RLState) (u g : Nat) (t0 : Int),
      lookupV s.visitors ip = some ⟨u, g, t0⟩ → u ≤ B →
      (allowTimes rate B s ip t (n + 1)).1.visitors
          = upd s.visitors ip ⟨min (u + (n + 1)) B, g, t⟩
      ∧ (allowTimes rate B s ip t (n + 1)).1.pending
          = List.replicate (min (n + 1) (B - u)) (ip, g, t + rate) ++ s.pending
      ∧ (allowTimes rate B s ip t (n + 1)).1.nextGen = s.nextGen := by
  intro n
  induction n with
  | zero =>
    intro s u g t0 h hu
    rw [allowTimes_succ, allowTimes_zero]
    by_cases hb : u < B
    · have hstep : Allow rate B s ip t
          = ({ s with visitors := upd s.visitors ip ⟨u + 1, g, t⟩,
                      pending := (ip, g, t + rate) :: s.pending }, true) := by
        simp [Allow, h, hb]
      rw [hstep]
      refine ⟨?_, ?_, rfl⟩ <;> dsimp only
      · have h1 : min (u + (0 + 1)) B = u + 1 := by omega
        rw [h1]
      · have h2 : min (0 + 1) (B - u) = 1 := by omega
        rw [h2]
        rfl
    · have hstep : Allow rate B s ip t
          = ({ s with visitors := upd s.visitors ip ⟨u, g, t⟩ }, false) := by
        simp [Allow, h, hb]
      rw [hstep]
      refine ⟨?_, ?_, rfl⟩ <;> dsimp only
      · have h1 : min (u + (0 + 1)) B = u := by omega
        rw [h1]
      · have h2 : min (0 + 1) (B - u) = 0 := by omega
        rw [h2]
        rfl
  | succ n ih =>
    intro s u g t0 h hu
    rw [allowTimes_succ]
    by_cases hb : u < B
    · have hstep : Allow rate B s ip t
          = ({ s with visitors := upd s.visitors ip ⟨u + 1, g, t⟩,
                      pending := (ip, g, t + rate) :: s.pending }, true) := by
        simp [Allow, h, hb]
      rw [hstep]
      dsimp only
      have hl' : lookupV ({ s with
          visitors := upd s.visitors ip ⟨u + 1, g, t⟩,
          pending := (ip, g, t + rate) :: s.pending } : RLState).visitors ip
          = some ⟨u + 1, g, t⟩ := lookupV_upd_self _ _ _
      obtain ⟨hv, hp, hg⟩ := ih _ (u + 1) g t hl' (by omega)
      refine ⟨?_, ?_, hg⟩
      · rw [hv]
        dsimp only
        rw [upd_upd]
        have h1 : min (u + 1 + (n + 1)) B = min (u + (n + 1 + 1)) B := by omega
        rw [h1]
      · rw [hp]
        dsimp only
        rw [replicate_append_cons]
        have h2 : min (n + 1) (B - (u + 1)) + 1 = min (n + 1 + 1) (B - u) := by omega
        rw [h2]
    · have hstep : Allow rate B s ip t
          = ({ s with visitors := upd s.visitors ip ⟨u, g, t⟩ }, false) := by
        simp [Allow, h, hb]
      rw [hstep]
      dsimp only
      have hl' : lookupV ({ s with
          visitors := upd s.visitors ip ⟨u, g, t⟩ } : RLState).visitors ip
          = some ⟨u, g, t⟩ := lookupV_upd_self _ _ _
      obtain ⟨hv, hp, hg⟩ := ih _ u g t hl' hu
      refine ⟨?_, ?_, hg⟩
      · rw [hv]
        dsimp only
        rw [upd_upd]
        have h1 : min (u + (n + 1)) B = min (u + (n + 1 + 1)) B := by omega
        rw [h1]
      · rw [hp]
        dsimp only
        have h2 : B - u = 0 := by omega
        rw [h2]
        simp

/-- First call for an address without a visitor entry: the entry is
created with a fresh generation, one slot consumed, and the call admitted
(provided any burst capacity exists). -/
theorem allow_fresh (rate : Int) (B : Nat) (s : RLState) (ip : String) (t : Int)
    (h : lookupV s.visitors ip = none) (hB : 0 < B) :
    Allow rate B s ip t
      = ({ visitors := upd s.visitors ip ⟨1, s.nextGen, t⟩,
           pending := (ip, s.nextGen, t + rate) :: s.pending,
           nextGen := s.nextGen + 1 }, true) := by
  simp [Allow, h, hB]

/-- A fresh client gets `n ≤ B` consecutive admissions. -/
theorem allowTimes_fresh_results (rate : Int) (B : Nat) (s : RLState) (ip : String)
    (t : Int) (n : Nat) (h : lookupV s.visitors ip = none) (hn : n ≤ B) :
    (allowTimes rate B s ip t n).2 = List.replicate n true := by
  cases n with
  | zero => simp [allowTimes_zero]
  | succ m =>
    have hB : 0 < B := by omega
    rw [allowTimes_succ, allow_fresh rate B s ip t h hB]
    dsimp only
    rw [allowTimes_results rate B ip t m _ 1 s.nextGen t (lookupV_upd_self _ _ _) hB]
    have h1 : min m (B - 1) = m := by omega
    have h2 : m - (B - 1) = 0 := by omega
    rw [h1, h2]
    simp [List.replicate_succ]

theorem foldl_fireOne_replicate (ip : String) (g : Nat) (tt : Int) :
    ∀ (k : Nat) (s : RLState) (u : Nat) (ls : Int),
      lookupV s.visitors ip = some ⟨u, g, ls⟩ →
      (List.replicate k (ip, g, tt)).foldl (fun acc p => fireOne acc p.1 p.2.1) s
        = { s with visitors := upd s.visitors ip ⟨u - k, g, ls⟩ } := by
  intro k
  induction k with
  | zero =>
    intro s u ls h
    rw [List.replicate_zero, List.foldl_nil, Nat.sub_zero, upd_self h]
  | succ k ih =>
    intro s u ls h
    rw [List.replicate_succ, List.foldl_cons]
    have hfire : fireOne s ip g = { s with visitors := upd s.visitors ip ⟨u - 1, g, ls⟩ } := by
      simp [fireOne, h]
    rw [hfire, ih _ (u - 1) ls (lookupV_upd_self _ _ _)]
    dsimp only
    rw [upd_upd]
    have h1 : u - 1 - k = u - (k + 1) := by omega
    rw [h1]

/-- Once the wall clock reaches the common release time, every pending
delayed receive fires and the visitor's consumed-slot count drops by the
number of pending releases. -/
theorem elapse_replicate (s : RLState) (ip : String) (g : Nat) (tr : Int)
    (k u : Nat) (ls : Int)
    (hp : s.pending = List.replicate k (ip, g, tr))
    (hv : lookupV s.visitors ip = some ⟨u, g, ls⟩) :
    elapse s tr = { s with visitors := upd s.visitors ip ⟨u - k, g, ls⟩, pending := [] } := by
  have hfil : (List.replicate k (ip, g, tr)).filter (fun p => decide (p.2.2 ≤ tr))
      = List.replicate k (ip, g, tr) := by
    rw [List.filter_eq_self]
    intro a ha
    have ha' := List.eq_of_mem_replicate ha
    subst ha'
    simp
  have hfil2 : (List.replicate k (ip, g, tr)).filter (fun p => !(decide (p.2.2 ≤ tr))) = [] := by
    rw [List.filter_eq_nil_iff]
    intro a ha
    have ha' := List.eq_of_mem_replicate ha
    subst ha'
    simp
  simp only [elapse, hp, hfil, hfil2]
  exact foldl_fireOne_replicate ip g tr k { s with pending := [] } u ls hv

theorem lookupV_mem {m : List (String × Visitor)} {k : String} {v : Visitor}
    (h : lookupV m k = some v) : (k, v) ∈ m := by
  induction m with
  | nil => simp [lookupV] at h
  | cons kv rest ih =>
    obtain ⟨k', w⟩ := kv
    by_cases hk : k' == k
    · simp only [lookupV, if_pos hk, Option.some.injEq] at h
      cases eq_of_beq hk
      subst h
      exact List.mem_cons_self _ _
    · simp only [lookupV, if_neg hk] at h
      exact List.mem_cons_of_mem _ (ih h)

/-- **C6.** The sweep removes exactly the visitors whose last-seen
timestamp is over an hour old: the stale client's entry is gone, every
surviving entry was seen within the hour, and the evicted address is
treated as a fresh client — its next `B` calls are all admitted. -/
theorem C6_sweep_eviction (rate : Int) (B : Nat) (s : RLState) (ip : String)
    (v : Visitor) (t t' : Int)
    (hnd : (s.visitors.map Prod.fst).Nodup)
    (hv : lookupV s.visitors ip = some v)
    (hold : hourLen < t - v.lastSeen) :
    lookupV (cleanupVisitors s t).visitors ip = none
    ∧ (∀ ip' w, lookupV (cleanupVisitors s t).visitors ip' = some w →
        t - w.lastSeen ≤ hourLen)
    ∧ (allowTimes rate B (cleanupVisitors s t) ip t' B).2 = List.replicate B true := by
  have h1 : lookupV (cleanupVisitors s t).visitors ip = none := by
    unfold cleanupVisitors
    apply lookupV_filter_none _ hnd hv
    simp [hold]
  refine ⟨h1, ?_, ?_⟩
  · intro ip' w hw
    have hmem := lookupV_mem hw
    unfold cleanupVisitors at hmem
    have hpw := (List.mem_filter.mp hmem).2
    simp only [Bool.not_eq_true', decide_eq_false_iff_not, not_lt] at hpw
    exact hpw
  · exact allowTimes_fresh_results rate B _ ip t' B h1 le_rfl

/-- Witness for C6: a visitor idle for just over an hour is evicted at the
sweep and its next two calls (burst 2) are both admitted. -/
theorem C6_witness :
    hourLen < (hourLen + 1) - (0 : Int)
    ∧ lookupV (cleanupVisitors ⟨[("a", ⟨2, 0, 0⟩)], [], 1⟩ (hourLen + 1)).visitors "a" = none
    ∧ (allowTimes 5 2 (cleanupVisitors ⟨[("a", ⟨2, 0, 0⟩)], [], 1⟩ (hourLen + 1))
        "a" (hourLen + 1) 2).2 = List.replicate 2 true :=
  have hc := C6_sweep_eviction 5 2 ⟨[("a", ⟨2, 0, 0⟩)], [], 1⟩ "a" ⟨2, 0, 0⟩
    (hourLen + 1) (hourLen + 1) (by simp) rfl (by decide)
  ⟨by decide, hc.1, hc.2.2⟩

/-- **C4 counterexample.** Burst 2, three immediate calls at `t = 0` admit
twice and reject once; after one full rate interval *both* consumed slots
have been returned, so two further calls are both admitted — not
"exactly one": the further admission pattern is `[true, true]`, not
`[true, false]`. -/
theorem C4_counterexample_more_than_one_readmitted :
    (allowTimes 1 2 initRL "a" 0 3).2 = [true, true, false]
    ∧ (allowTimes 1 2 (elapse (allowTimes 1 2 initRL "a" 0 3).1 1) "a" 1 2).2
        = [true, true]
    ∧ ¬ (allowTimes 1 2 (elapse (allowTimes 1 2 initRL "a" 0 3).1 1) "a" 1 2).2
        = [true, false] := by
  decide

/-- **C4 amended.** From a fresh limiter, `B + 1` immediate calls admit
exactly `B` times and reject the `(B+1)`th; a rejected call is never
queued — it schedules no release and leaves the visitor's consumed count
unchanged (only last-seen moves); and once one rate interval has elapsed
*every* slot consumed in the burst has been returned, so the next `B`
calls are all admitted again (not exactly one). -/
theorem C4_amended_burst_admission (rate : Int) (B : Nat) (ip : String) (t : Int)
    (hB : 1 ≤ B) :
    (allowTimes rate B initRL ip t (B + 1)).2 = List.replicate B true ++ [false]
    ∧ (∀ (s : RLState) (ip' : String) (t' : Int),
        (Allow rate B s ip' t').2 = false →
        (Allow rate B s ip' t').1.pending = s.pending
        ∧ ∀ v, lookupV s.visitors ip' = some v →
            lookupV (Allow rate B s ip' t').1.visitors ip' = some ⟨v.used, v.gen, t'⟩)
    ∧ lookupV (elapse (allowTimes rate B initRL ip t (B + 1)).1 (t + rate)).visitors ip
        = some ⟨0, 0, t⟩
    ∧ (allowTimes rate B (elapse (allowTimes rate B initRL ip t (B + 1)).1 (t + rate))
        ip (t + rate) B).2 = List.replicate B true := by
  obtain ⟨B', rfl⟩ : ∃ B', B = B' + 1 := ⟨B - 1, by omega⟩
  have hinit : lookupV initRL.visitors ip = none := rfl
  have hf : Allow rate (B' + 1) initRL ip t
      = (({ visitors := [(ip, ⟨1, 0, t⟩)],
            pending := [(ip, 0, t + rate)],
            nextGen := 1 } : RLState), true) := by
    rw [allow_fresh rate (B' + 1) initRL ip t hinit (by omega)]
    rfl
  have hA : (Allow rate (B' + 1) initRL ip t).1
      = ({ visitors := [(ip, ⟨1, 0, t⟩)],
           pending := [(ip, 0, t + rate)],
           nextGen := 1 } : RLState) := by
    rw [hf]
  have hA2 : (Allow rate (B' + 1) initRL ip t).2 = true := by
    rw [hf]
  have hsplit : allowTimes rate (B' + 1) initRL ip t (B' + 1 + 1)
      = ((allowTimes rate (B' + 1) (Allow rate (B' + 1) initRL ip t).1
            ip t (B' + 1)).1,
         true :: (allowTimes rate (B' + 1) (Allow rate (B' + 1) initRL ip t).1
            ip t (B' + 1)).2) := by
    rw [allowTimes_succ, hA2]
  have hl1 : lookupV (Allow rate (B' + 1) initRL ip t).1.visitors ip
      = some ⟨1, 0, t⟩ := by
    rw [hA]
    simp [lookupV]
  obtain ⟨hv2, hp2, hg2⟩ := allowTimes_state rate (B' + 1) ip t B' _ 1 0 t hl1 (by omega)
  have hvis : (allowTimes rate (B' + 1) initRL ip t (B' + 1 + 1)).1.visitors
      = [(ip, ⟨B' + 1, 0, t⟩)] := by
    rw [hsplit]
    dsimp only
    rw [hv2, hA]
    dsimp only
    have h1 : min (1 + (B' + 1)) (B' + 1) = B' + 1 := by omega
    rw [h1]
    simp [upd]
  have hpend : (allowTimes rate (B' + 1) initRL ip t (B' + 1 + 1)).1.pending
      = List.replicate (B' + 1) (ip, 0, t + rate) := by
    rw [hsplit]
    dsimp only
    rw [hp2, hA]
    dsimp only
    have h1 : min (B' + 1) (B' + 1 - 1) = B' := by omega
    rw [h1, ← List.replicate_succ']
  have hlB : lookupV (allowTimes rate (B' + 1) initRL ip t (B' + 1 + 1)).1.visitors ip
      = some ⟨B' + 1, 0, t⟩ := by
    rw [hvis]
    simp [lookupV]
  have helapse := elapse_replicate _ ip 0 (t + rate) (B' + 1) (B' + 1) t hpend hlB
  have hlook0 : lookupV (elapse (allowTimes rate (B' + 1) initRL ip t (B' + 1 + 1)).1
      (t + rate)).visitors ip = some ⟨0, 0, t⟩ := by
    rw [helapse]
    dsimp only
    have h0 : (B' + 1) - (B' + 1) = 0 := by omega
    rw [h0]
    exact lookupV_upd_self _ _ _
  refine ⟨?_, ?_, hlook0, ?_⟩
  · rw [hsplit]
    dsimp only
    rw [allowTimes_results rate (B' + 1) ip t (B' + 1) _ 1 0 t hl1 (by omega)]
    have h1 : min (B' + 1) (B' + 1 - 1) = B' := by omega
    have h2 : (B' + 1) - (B' + 1 - 1) = 1 := by omega
    rw [h1, h2]
    simp [List.replicate_succ]
  · intro s ip' t' hfalse
    cases hl : lookupV s.visitors ip' with
    | none =>
      rw [allow_fresh rate (B' + 1) s ip' t' hl (by omega)] at hfalse
      simp at hfalse
    | some v =>
      by_cases hb : v.used < B' + 1
      · have htrue : (Allow rate (B' + 1) s ip' t').2 = true := by
          simp [Allow, hl, hb]
        rw [htrue] at hfalse
        simp at hfalse
      · have hstep : Allow rate (B' + 1) s ip' t'
            = ({ s with visitors := upd s.visitors ip' ⟨v.used, v.gen, t'⟩ }, false) := by
          simp [Allow, hl, hb]
        refine ⟨by rw [hstep], ?_⟩
        intro w hw
        obtain rfl := Option.some.inj hw
        rw [hstep]
        dsimp only
        exact lookupV_upd_self _ _ _
  · rw [allowTimes_results rate (B' + 1) ip (t + rate) (B' + 1) _ 0 0 t hlook0 (by omega)]
    have h1 : min (B' + 1) ((B' + 1) - 0) = B' + 1 := by omega
    have h2 : (B' + 1) - ((B' + 1) - 0) = 0 := by omega
    rw [h1, h2]
    simp

/-- Witness for C4 amended at burst 1. -/
theorem C4_amended_witness :
    (1 : Nat) ≤ 1
    ∧ (allowTimes 5 1 initRL "b" 0 2).2 = List.replicate 1 true ++ [false] :=
  ⟨by decide, (C4_amended_burst_admission 5 1 "b" 0 (by decide)).1⟩

end UserMgmt
